import Mathlib

/-
Verification of the raw HTTP message round-trip pipeline and the
repeat/request orchestration of `burp_client.py` / `burp_mcp.py`
(repository Velby/burp_mcp_api), as a shallow embedding in Lean 4.

Modelling conventions:
- Python `str` is modelled as `List Char` (named `Str`); Python string
  literals appear as Lean string literals followed by `.data`.
- Python dicts of strings (insertion-ordered, exact-key access) are
  modelled as association lists (`Dict`), with `dictSet` reproducing
  `d[k] = v` (update in place when the exact key exists, append
  otherwise) and `dictUpdate` reproducing `d.update(e)`.
- `str.strip`, `str.split`, `str.partition`, `str.replace`,
  `str.lower`/`upper` are reimplemented over `List Char` with Python's
  semantics (ASCII case mapping suffices for the headers at issue).
- Fallible calls return `Except PyExc`; `PyExc` distinguishes
  `RuntimeError` (the only class `_safe` catches) from the exception
  classes raised by the `requests` library, which are not
  `RuntimeError` subclasses in Python.
- Network effects (the Burp REST bridge store, and the forwarding
  proxy used by `requests`) are parameters: a `store` function mapping
  (item id, query parameters) to a result, and a `transport` function
  mapping the outbound call to a response or a raised exception.
-/

namespace Burp

/-- Python `str` modelled as a list of characters. -/
abbrev Str := List Char

/-- Python insertion-ordered dict with `Str` keys and values. -/
abbrev Dict := List (Str × Str)

/-- The whitespace characters stripped by Python's `str.strip()`
(ASCII fragment, which covers all inputs at issue). -/
def pyIsSpace (c : Char) : Bool :=
  c = ' ' || c = '\t' || c = '\n' || c = '\r' || c = '\x0B' || c = '\x0C'

/-- Remove leading whitespace (left half of `str.strip()`). -/
def stripLeft (s : Str) : Str := s.dropWhile pyIsSpace

/-- Remove trailing whitespace (right half of `str.strip()`). -/
def stripRight : Str → Str
  | [] => []
  | c :: rest =>
    match stripRight rest with
    | [] => if pyIsSpace c then [] else [c]
    | x :: xs => c :: x :: xs

/-- Python `str.strip()`. -/
def pyStrip (s : Str) : Str := stripRight (stripLeft s)

/-- Python `str.split(sep)` for a one-character separator: split on every
occurrence, keeping empty fragments (`"".split(c) == [""]`). -/
def splitOnCh (c : Char) : Str → List Str
  | [] => [[]]
  | x :: xs =>
    match splitOnCh c xs with
    | [] => [[]]
    | h :: t => if x = c then [] :: h :: t else (x :: h) :: t

/-- Inverse of `splitOnCh`: join fragments with a one-character separator. -/
def joinCh (c : Char) : List Str → Str
  | [] => []
  | [l] => l
  | l :: l2 :: ls => l ++ c :: joinCh c (l2 :: ls)

/-- Python `str.split(sep, 1)` for a one-character separator, given that the
separator occurs: everything before the first occurrence, and everything
after it. -/
def splitFirst (c : Char) : Str → Str × Str
  | [] => ([], [])
  | x :: xs =>
    if x = c then ([], xs)
    else ((x :: (splitFirst c xs).1), (splitFirst c xs).2)

/-- Python `text.partition("\n\n")`, projected to the two components the
source uses: the text before the first blank line, and the text after it
(the whole text and an empty remainder when no blank line occurs). -/
def partitionBlank : Str → Str × Str
  | [] => ([], [])
  | c :: rest =>
    if c = '\n' ∧ rest.head? = some '\n' then ([], rest.tail)
    else ((c :: (partitionBlank rest).1), (partitionBlank rest).2)

/-- Worker for `pyReplaceStr` (nonempty pattern), with fuel bounded by the
length of the subject so that the recursion is structural: scan left to
right, replacing each non-overlapping occurrence of `old` by `new`. -/
def pyReplaceGoF (old new : Str) : Nat → Str → Str
  | _, [] => []
  | 0, s => s
  | fuel + 1, c :: rest =>
    if old.isPrefixOf (c :: rest) then
      new ++ pyReplaceGoF old new fuel (rest.drop (old.length - 1))
    else
      c :: pyReplaceGoF old new fuel rest

/-- Python `s.replace(old, new)`: every non-overlapping occurrence of `old`
is replaced by `new`, scanning left to right; an empty `old` inserts `new`
before every character and at the end, as in Python. -/
def pyReplaceStr (s old new : Str) : Str :=
  if old = [] then new ++ s.foldr (fun c acc => c :: (new ++ acc)) []
  else pyReplaceGoF old new s.length s

/-- Python `str.lower()` (ASCII mapping, sufficient for header names). -/
def pyLower (s : Str) : Str := s.map Char.toLower

/-- Python `str.upper()` (ASCII mapping, sufficient for HTTP methods). -/
def pyUpper (s : Str) : Str := s.map Char.toUpper

/-- Python `str(n)` for a nonnegative integer. -/
def natToStr (n : Nat) : Str := (Nat.repr n).data

/-- Exact-key lookup, as Python `d[k]` / `k in d` on a dict. -/
def dictGet : Dict → Str → Option Str
  | [], _ => none
  | e :: rest, k => if e.1 = k then some e.2 else dictGet rest k

/-- Python `k in d`. -/
def dictHasKey (d : Dict) (k : Str) : Bool := (dictGet d k).isSome

/-- Python `d[k] = v`: overwrite in place when the exact key is present,
append otherwise. -/
def dictSet : Dict → Str → Str → Dict
  | [], k, v => [(k, v)]
  | e :: rest, k, v => if e.1 = k then (e.1, v) :: rest else e :: dictSet rest k v

/-- Python `d.update(e)`: apply `dictSet` for each entry of `e` in order. -/
def dictUpdate (d e : Dict) : Dict := e.foldl (fun acc p => dictSet acc p.1 p.2) d

/-- The keys of a dict, in storage order. -/
def dictKeys (d : Dict) : List Str := d.map (fun e => e.1)

/-- Number of entries whose key equals `name` up to ASCII case. -/
def countCI : Dict → Str → Nat
  | [], _ => 0
  | e :: rest, name =>
    (if pyLower e.1 = pyLower name then 1 else 0) + countCI rest name

/-- `_pop_header(headers, name)` from `burp_client.py`: remove the first
entry whose key equals `name` case-insensitively and return its value,
leaving any later case-variant entries in place. The Python function
mutates `headers`; here it returns the popped value and the new dict. -/
def popHeader : Dict → Str → Option Str × Dict
  | [], _ => (none, [])
  | e :: rest, name =>
    if pyLower e.1 = pyLower name then (some e.2, rest)
    else ((popHeader rest name).1, e :: (popHeader rest name).2)

/-- The structured request produced by `_parse_http_request`. -/
structure ParsedRequest where
  method : Str
  path : Str
  headers : Dict
  body : Str
deriving Repr, DecidableEq

/-- One step of the header-collecting loop of `_parse_http_request`:
`if ":" in line: k, v = line.split(":", 1); headers[k.strip()] = v.strip()`. -/
def parseHeaderFold (hs : Dict) (line : Str) : Dict :=
  if ':' ∈ line then
    dictSet hs (pyStrip (splitFirst ':' line).1) (pyStrip (splitFirst ':' line).2)
  else hs

/-- The body of `_parse_http_request` after its first statement (the
newline normalization): split at the first blank line, read method and
path from the first line (with the source's literal defaults), collect
`k: v` header lines into a dict, and strip the body. -/
def parseAfterNorm (t : Str) : ParsedRequest :=
  let hb := partitionBlank t
  let lines := splitOnCh '\n' hb.1
  let parts := splitOnCh ' ' (pyStrip (lines.headD []))
  { method := match parts with | [] => "GET".data | m :: _ => m
    path := match parts with | _ :: p :: _ => p | _ => "/".data
    headers := (lines.drop 1).foldl parseHeaderFold []
    body := pyStrip hb.2 }

/-- `_parse_http_request(text)` from `burp_client.py`: normalize line
endings (`replace("\r\n", "\n").replace("\r", "\n")`), then parse. -/
def parseHttpRequest (text : Str) : ParsedRequest :=
  parseAfterNorm (pyReplaceStr (pyReplaceStr text "\r\n".data "\n".data) "\r".data "\n".data)

/-- Modelled from the spec: the repository's source under `src/` declares
no `build` function (the spec's §4.1 describes `build(parsedRequest) →
rawText` but the code transmits the structured form directly), so the
serializer is taken from the spec's words: re-emit a standards-conformant
request line (`method SP path SP HTTP/1.1`), the headers in their stored
order as `name: value` lines, a blank-line separator, then the body. -/
def buildHttpRequest (p : ParsedRequest) : Str :=
  joinCh '\n'
      ((p.method ++ " ".data ++ p.path ++ " HTTP/1.1".data)
        :: p.headers.map (fun e => e.1 ++ ": ".data ++ e.2))
    ++ "\n\n".data ++ p.body

/-- Python exception classes relevant to the client: `RuntimeError` is what
`_get`/`_post` raise (and the only class `_safe` catches); `ValueError` is
raised by `send_to_repeater`; the exceptions raised by the `requests`
library on transport failure (`requests.exceptions.ConnectionError` etc.)
derive from `IOError`, not from `RuntimeError`, and are modelled as a
separate constructor. -/
inductive PyExc where
  | runtimeError : Str → PyExc
  | valueError : Str → PyExc
  | requestsConnectionError : Str → PyExc
deriving Repr, DecidableEq

/-- The fields of a traffic item that `BurpClient.repeat` reads, each
accessed in the source with `item.get(key, "")`, hence optional. -/
structure TrafficItem where
  url : Option Str
  host : Option Str
  request_text : Option Str
deriving Repr, DecidableEq

/-- The store behind `GET /proxy/history/{id}`: a function from the item
id and the query parameters sent by `_get` to a result or a raised
exception (the real `_get` turns any HTTP / connection failure into a
`RuntimeError`). -/
abbrev Store := Nat → List (Str × Str) → Except PyExc TrafficItem

/-- The query parameters `BurpClient.get` sends: `_get` drops parameters
whose value is `None`, and `get` passes `max_body` only when positive, so
`max_body = 0` (truncation disabled) sends no parameter at all. -/
def get_params (max_body : Nat) : List (Str × Str) :=
  if max_body > 0 then [("max_body".data, natToStr max_body)] else []

/-- The string-substitution step of `BurpClient.repeat`: Python skips the
loop when `replacements` is `None` or an empty dict, and otherwise applies
`request_text.replace(old, new)` for each pair in insertion order. -/
def applyReplacements (replacements : Option (List (Str × Str))) (t : Str) : Str :=
  match replacements with
  | none => t
  | some rs => if rs = [] then t else rs.foldl (fun acc p => pyReplaceStr acc p.1 p.2) t

/-- Error message of the `RuntimeError` raised by `repeat` when the fetched
item has no request text. -/
def noRequestTextMsg (item_id : Nat) : Str :=
  "No request text for item ".data ++ natToStr item_id

/-- Everything `BurpClient.repeat` computes before invoking
`self.request(...)`: the method, the rebuilt URL, the mutated header dict
and the post-mutation body. -/
structure PreSend where
  method : Str
  url : Str
  headers : Dict
  req_body : Str
deriving Repr, DecidableEq

/-- The fetch-and-mutate phase of `BurpClient.repeat` (lines 288-316 of
`burp_client.py`): fetch the item with `max_body=0`, fail when it has no
request text, apply string replacements, parse, derive scheme and host
(popping the `Host` header, falling back to the item's host when the
popped value is missing or empty), drop `content-length` and
`transfer-encoding`, apply `add_headers` via dict update, apply the body
replacement, and set the `X-Burp-MCP` marker. -/
def repeat_pre (store : Store) (item_id : Nat)
    (replacements : Option (List (Str × Str))) (add_headers : Option Dict)
    (body : Option Str) : Except PyExc PreSend :=
  match store item_id (get_params 0) with
  | .error e => .error e
  | .ok item =>
    let request_text := item.request_text.getD []
    if request_text = [] then .error (.runtimeError (noRequestTextMsg item_id))
    else
      let p := parseHttpRequest (applyReplacements replacements request_text)
      let scheme := if "https".data.isPrefixOf (item.url.getD []) then "https".data
                    else "http".data
      let hostPop := popHeader p.headers "host".data
      let host := match hostPop.1 with
        | some h => if h = [] then item.host.getD [] else h
        | none => item.host.getD []
      let url := scheme ++ "://".data ++ host ++ p.path
      let headers := (popHeader (popHeader hostPop.2 "content-length".data).2
        "transfer-encoding".data).2
      let headers := match add_headers with
        | some ah => if ah = [] then headers else dictUpdate headers ah
        | none => headers
      let req_body := match body with
        | some b => b
        | none => p.body
      let headers := dictSet headers "X-Burp-MCP".data ("repeat:".data ++ natToStr item_id)
      .ok { method := p.method, url := url, headers := headers, req_body := req_body }

/-- The `body=req_body or None` argument `repeat` passes to `request`:
an empty post-mutation body is transmitted as no body at all. -/
def repeat_body_arg (req_body : Str) : Option Str :=
  if req_body = [] then none else some req_body

/-- The outbound call `BurpClient.request` hands to `requests.request`:
upper-cased method, URL, send headers and optional body. -/
structure SendCall where
  method : Str
  url : Str
  headers : Dict
  body : Option Str
deriving Repr, DecidableEq

/-- The argument-assembly phase of `BurpClient.request` (lines 242-253):
copy the caller's headers (or start empty), default the `X-Burp-MCP`
header to `"request"` when the exact key is absent, and upper-case the
method. -/
def request_send_call (method url : Str) (headers : Option Dict)
    (body : Option Str) : SendCall :=
  let send_headers := headers.getD []
  let send_headers :=
    if dictHasKey send_headers "X-Burp-MCP".data then send_headers
    else dictSet send_headers "X-Burp-MCP".data "request".data
  { method := pyUpper method, url := url, headers := send_headers, body := body }

/-- Response-body truncation in `BurpClient.request` (lines 254-257): when
a positive limit is set and the body exceeds it, keep the first
`max_response_body` characters and append the omission marker naming the
exact number of omitted characters. -/
def truncate_body (max_response_body : Nat) (t : Str) : Str :=
  if max_response_body > 0 ∧ t.length > max_response_body then
    t.take max_response_body ++ "\n[... ".data ++ natToStr (t.length - max_response_body)
      ++ " chars omitted]".data
  else t

/-- The response `requests.request` returns: status, headers, text. -/
structure TransResp where
  status_code : Nat
  headers : Dict
  text : Str
deriving Repr, DecidableEq

/-- The transmission effect behind `requests.request`: either a response
or a raised exception (e.g. a connection error to the forwarding proxy). -/
abbrev Transport := SendCall → Except PyExc TransResp

/-- The dict `BurpClient.request` returns. -/
structure ReqResult where
  status_code : Nat
  headers : Dict
  body : Str
  url : Str
  method : Str
deriving Repr, DecidableEq

/-- `BurpClient.request` (lines 215-264): assemble the outbound call, run
it through the transport, and normalize the response with optional body
truncation. -/
def requestImpl (transport : Transport) (method url : Str) (headers : Option Dict)
    (body : Option Str) (max_response_body : Nat) : Except PyExc ReqResult :=
  let call := request_send_call method url headers body
  match transport call with
  | .error e => .error e
  | .ok resp =>
    .ok { status_code := resp.status_code, headers := resp.headers,
          body := truncate_body max_response_body resp.text,
          url := url, method := pyUpper method }

/-- The dict `BurpClient.repeat` returns: the `request` result with the
source item id attached. -/
structure RepeatResult where
  result : ReqResult
  item_id : Nat
deriving Repr, DecidableEq

/-- `BurpClient.repeat` (lines 266-321): fetch-and-mutate, then transmit
via `request` with `body=req_body or None`, then attach `item_id`. -/
def repeatImpl (store : Store) (transport : Transport) (item_id : Nat)
    (replacements : Option (List (Str × Str))) (add_headers : Option Dict)
    (body : Option Str) (max_response_body : Nat) : Except PyExc RepeatResult :=
  match repeat_pre store item_id replacements add_headers body with
  | .error e => .error e
  | .ok pre =>
    match requestImpl transport pre.method pre.url (some pre.headers)
        (repeat_body_arg pre.req_body) max_response_body with
    | .error e => .error e
    | .ok r => .ok { result := r, item_id := item_id }

/-- The exact `SendCall` `repeat` hands to the transport (the composition
of `repeat_pre` with the argument assembly of `request`). -/
def repeat_transmitted (store : Store) (item_id : Nat)
    (replacements : Option (List (Str × Str))) (add_headers : Option Dict)
    (body : Option Str) : Except PyExc SendCall :=
  match repeat_pre store item_id replacements add_headers body with
  | .error e => .error e
  | .ok pre =>
    .ok (request_send_call pre.method pre.url (some pre.headers)
      (repeat_body_arg pre.req_body))

/-- The outcome of `urllib.request.urlopen` inside `_get`/`_post`: either
a value, an HTTP error (non-2xx status, with status code and body), or a
URL error (connection failure). -/
inductive UrllibFail where
  | httpError : Nat → Str → UrllibFail
  | urlError : Str → UrllibFail
deriving Repr, DecidableEq

/-- `BurpClient._get` error normalization (lines 59-65): both an
`HTTPError` and a `URLError` from the store are re-raised as
`RuntimeError` with a readable message. -/
def clientGet {α : Type} (base_url : Str) (net : Except UrllibFail α) : Except PyExc α :=
  match net with
  | .ok a => .ok a
  | .error (.httpError code body) =>
    .error (.runtimeError ("HTTP ".data ++ natToStr code ++ ": ".data ++ body))
  | .error (.urlError _) =>
    .error (.runtimeError ("Cannot connect to Burp REST Bridge at ".data ++ base_url
      ++ ". Is the extension loaded and Burp running?".data))

/-- Result shape of an MCP tool call: either the wrapped value or the
structured dict carrying an `error` field that `_safe` builds. -/
inductive SafeResult (α : Type) where
  | ok : α → SafeResult α
  | errorField : Str → SafeResult α
deriving Repr, DecidableEq

/-- `_safe` from `burp_mcp.py` (lines 35-40): run the client call and turn
a `RuntimeError` — and only a `RuntimeError` — into a structured
`error`-field result; any other exception propagates. -/
def safe {α : Type} (fn : Except PyExc α) : Except PyExc (SafeResult α) :=
  match fn with
  | .ok a => .ok (.ok a)
  | .error (.runtimeError m) => .ok (.errorField m)
  | .error e => .error e

/-- The `burp_repeat` MCP tool: `_safe(lambda: _client.repeat(...))`. -/
def burpRepeatTool (store : Store) (transport : Transport) (item_id : Nat)
    (replacements : Option (List (Str × Str))) (add_headers : Option Dict)
    (body : Option Str) (max_response_body : Nat) : Except PyExc (SafeResult RepeatResult) :=
  safe (repeatImpl store transport item_id replacements add_headers body max_response_body)

/-- An MCP tool whose client call goes through `_get` only (e.g.
`burp_health`, `burp_search`, `burp_get_item`): `_safe` around the
`_get`-normalized network outcome. -/
def burpStoreTool {α : Type} (base_url : Str) (net : Except UrllibFail α) :
    Except PyExc (SafeResult α) :=
  safe (clientGet base_url net)

/-- The request `repeat` parses: the fetched raw text after the string
substitutions. -/
def repeat_parsed (item : TrafficItem)
    (replacements : Option (List (Str × Str))) : ParsedRequest :=
  parseHttpRequest (applyReplacements replacements (item.request_text.getD []))

/-- The outbound scheme `repeat` derives from the captured item. -/
def repeat_scheme (item : TrafficItem) : Str :=
  if "https".data.isPrefixOf (item.url.getD []) then "https".data else "http".data

/-- The outbound host `repeat` derives: the first case-insensitive `Host`
entry of the parsed headers when present and nonempty, else the item's
recorded host. -/
def repeat_host (item : TrafficItem) (replacements : Option (List (Str × Str))) : Str :=
  match (popHeader (repeat_parsed item replacements).headers "host".data).1 with
  | some h => if h = [] then item.host.getD [] else h
  | none => item.host.getD []

/-- The parsed headers after `repeat` pops `host`, `content-length` and
`transfer-encoding` (one first-match pop each). -/
def repeat_stripped (item : TrafficItem)
    (replacements : Option (List (Str × Str))) : Dict :=
  (popHeader (popHeader (popHeader (repeat_parsed item replacements).headers
    "host".data).2 "content-length".data).2 "transfer-encoding".data).2

/-- The final mutated header dict of `repeat`: the stripped headers,
updated with `add_headers` when nonempty, with the `X-Burp-MCP` marker
set last. -/
def repeat_mut_headers (item : TrafficItem)
    (replacements : Option (List (Str × Str))) (add_headers : Option Dict)
    (item_id : Nat) : Dict :=
  dictSet
    (match add_headers with
     | some ah => if ah = [] then repeat_stripped item replacements
                  else dictUpdate (repeat_stripped item replacements) ah
     | none => repeat_stripped item replacements)
    "X-Burp-MCP".data ("repeat:".data ++ natToStr item_id)

/-- Whether a text contains two consecutive newlines (the blank-line
separator `partitionBlank` splits on). -/
def hasDoubleNl : Str → Bool
  | [] => false
  | c :: rest =>
    if c = '\n' ∧ rest.head? = some '\n' then true else hasDoubleNl rest

/-- A request-line token as `_parse_http_request` produces it: no space,
no newline, no carriage return. -/
def tokenClean (s : Str) : Prop := ' ' ∉ s ∧ '\n' ∉ s ∧ '\r' ∉ s

/-- A header entry as `_parse_http_request` produces it: the key holds no
colon and neither component holds a newline or carriage return; both are
already stripped. -/
def entryClean (e : Str × Str) : Prop :=
  ':' ∉ e.1 ∧ '\n' ∉ e.1 ∧ '\r' ∉ e.1 ∧ pyStrip e.1 = e.1 ∧
  '\n' ∉ e.2 ∧ '\r' ∉ e.2 ∧ pyStrip e.2 = e.2

/-- The invariants every output of `_parse_http_request` satisfies. -/
def parsedClean (p : ParsedRequest) : Prop :=
  tokenClean p.method ∧
  (∀ c cs, p.method = c :: cs → pyIsSpace c = false) ∧
  tokenClean p.path ∧
  (∀ e ∈ p.headers, entryClean e) ∧
  (dictKeys p.headers).Nodup ∧
  '\r' ∉ p.body ∧ pyStrip p.body = p.body

/-- The raw text used to witness the round trip. -/
def c4text : Str :=
  "POST /login HTTP/1.1\r\nHost: a.test\r\nContent-Type: x\r\n\r\nuser=bob".data

/-! ### Concrete items, stores and transports used by individual claims -/

/-- Captured item whose parsed headers hold a lower-case `content-type`. -/
def c1item : TrafficItem :=
  ⟨some "http://a.test/".data, some "a.test".data,
    some "GET / HTTP/1.1\ncontent-type: a\n\n".data⟩

def c1store : Store := fun _ _ => .ok c1item

/-- Captured item carrying `Content-Length` under two casings. -/
def c2item : TrafficItem :=
  ⟨some "http://a.test/".data, some "a.test".data,
    some "GET / HTTP/1.1\nContent-Length: 42\ncontent-length: 43\n\n".data⟩

def c2store : Store := fun _ _ => .ok c2item

/-- Ordinary captured POST used to witness the amended C2. -/
def c2witem : TrafficItem :=
  ⟨some "http://a.test/".data, some "a.test".data,
    some "POST /login HTTP/1.1\nHost: a.test\nContent-Length: 9\n\nuser=bob".data⟩

def c2wstore : Store := fun _ _ => .ok c2witem

/-- The fetch-and-mutate result for the amended-C2 witness. -/
def c2wpre : PreSend :=
  ⟨"POST".data, "http://a.test/login".data,
    [("X-Custom".data, "1".data), ("X-Burp-MCP".data, "repeat:5".data)],
    "user=bob".data⟩

/-- Item whose stored record carries no request text. -/
def c5witem : TrafficItem := ⟨none, none, some []⟩

def c5wstore : Store := fun _ _ => .ok c5witem

def c5wtransport : Transport := fun _ => .ok ⟨200, [], []⟩

/-- Captured item with no `Host` header in its raw text. -/
def c6item : TrafficItem :=
  ⟨some "http://a.test/x".data, some "a.test".data,
    some "GET /x HTTP/1.1\n\n".data⟩

def c6store : Store := fun _ _ => .ok c6item

/-- Captured https item with a `Host` header, for the amended-C6 witness. -/
def c6witem : TrafficItem :=
  ⟨some "https://h.test/p".data, some "a.test".data,
    some "GET /p HTTP/1.1\nHost: h.test\n\n".data⟩

def c6wstore : Store := fun _ _ => .ok c6witem

/-- The fetch-and-mutate result for the amended-C6 witness. -/
def c6wpre : PreSend :=
  ⟨"GET".data, "https://h.test/p".data,
    [("X-Burp-MCP".data, "repeat:3".data)], []⟩

/-- The 25-character response body of the spec's truncation example. -/
def c7body : Str := "abcdefghijklmnopqrstuvwxy".data

/-- Captured item that already carries an `X-Burp-MCP` header. -/
def c8witem : TrafficItem :=
  ⟨some "http://a.test/".data, some "a.test".data,
    some "GET / HTTP/1.1\nHost: a.test\nX-Burp-MCP: spoof\n\n".data⟩

def c8wstore : Store := fun _ _ => .ok c8witem

/-- The call `repeat` transmits for the C8 witness. -/
def c8wcall : SendCall :=
  ⟨"GET".data, "http://a.test/".data,
    [("X-Burp-MCP".data, "repeat:4".data)], none⟩

/-- A perfectly healthy captured item for the C9 counterexample. -/
def c9item : TrafficItem :=
  ⟨some "http://a.test/".data, some "a.test".data,
    some "GET / HTTP/1.1\nHost: a.test\n\n".data⟩

def c9store : Store := fun _ _ => .ok c9item

/-- A forwarding proxy that is unreachable: `requests.request` raises a
`requests.exceptions.ConnectionError`, which is not a `RuntimeError`. -/
def c9transport : Transport :=
  fun _ => .error (.requestsConnectionError "connection refused by proxy".data)

/-- Captured POST with body `abc`, for the C10 witness. -/
def c10witem : TrafficItem :=
  ⟨some "http://a.test/".data, some "a.test".data,
    some "POST /x HTTP/1.1\nHost: a.test\n\nabc".data⟩

def c10wstore : Store := fun _ _ => .ok c10witem

/-- The fetch-and-mutate result for the C10 witness. -/
def c10wpre : PreSend :=
  ⟨"POST".data, "http://a.test/x".data,
    [("X-Burp-MCP".data, "repeat:2".data)], []⟩

/-! ### Dict lemmas -/

theorem dictGet_dictSet_self (d : Dict) (k v : Str) :
    dictGet (dictSet d k v) k = some v := by
  induction d with
  | nil => simp [dictSet, dictGet]
  | cons e rest ih =>
    by_cases h : e.1 = k
    · simp [dictSet, h, dictGet]
    · simp [dictSet, h, dictGet, ih]

theorem dictGet_dictSet_ne (d : Dict) (k v k' : Str) (h : k' ≠ k) :
    dictGet (dictSet d k v) k' = dictGet d k' := by
  induction d with
  | nil => simp [dictSet, dictGet, Ne.symm h]
  | cons e rest ih =>
    by_cases he : e.1 = k
    · subst he
      simp [dictSet, dictGet, Ne.symm h]
    · simp [dictSet, he, dictGet, ih]

theorem dictHasKey_dictSet_self (d : Dict) (k v : Str) :
    dictHasKey (dictSet d k v) k = true := by
  simp [dictHasKey, dictGet_dictSet_self]

theorem dictSet_of_not_has (d : Dict) (k v : Str) (h : dictHasKey d k = false) :
    dictSet d k v = d ++ [(k, v)] := by
  induction d with
  | nil => simp [dictSet]
  | cons e rest ih =>
    simp only [dictHasKey, dictGet] at h
    by_cases he : e.1 = k
    · simp [he] at h
    · simp only [dictSet, he, if_false, List.cons_append, List.cons.injEq, true_and]
      exact ih (by simpa [dictHasKey, he] using h)

theorem dictKeys_dictSet_of_has (d : Dict) (k v : Str) (h : dictHasKey d k = true) :
    dictKeys (dictSet d k v) = dictKeys d := by
  induction d with
  | nil => simp [dictHasKey, dictGet] at h
  | cons e rest ih =>
    by_cases he : e.1 = k
    · simp [dictSet, he, dictKeys]
    · simp only [dictSet, he, if_false, dictKeys, List.map_cons, List.cons.injEq, true_and]
      exact ih (by simpa [dictHasKey, dictGet, he] using h)

theorem dictUpdate_singleton (d : Dict) (k v : Str) :
    dictUpdate d [(k, v)] = dictSet d k v := rfl

/-! ### Case-insensitive count lemmas -/

theorem countCI_dictSet_ne (d : Dict) (k v n : Str) (h : pyLower k ≠ pyLower n) :
    countCI (dictSet d k v) n = countCI d n := by
  induction d with
  | nil => simp [dictSet, countCI, h]
  | cons e rest ih =>
    by_cases he : e.1 = k
    · simp [dictSet, he, countCI]
    · simp [dictSet, he, countCI, ih]

theorem countCI_dictUpdate (d : Dict) (ah : Dict) (n : Str)
    (h : ∀ e ∈ ah, pyLower e.1 ≠ pyLower n) :
    countCI (dictUpdate d ah) n = countCI d n := by
  induction ah generalizing d with
  | nil => rfl
  | cons e rest ih =>
    have : countCI (dictUpdate (dictSet d e.1 e.2) rest) n
        = countCI (dictSet d e.1 e.2) n :=
      ih (dictSet d e.1 e.2) (fun e' he' => h e' (List.mem_cons_of_mem _ he'))
    calc countCI (dictUpdate d (e :: rest)) n
        = countCI (dictUpdate (dictSet d e.1 e.2) rest) n := rfl
      _ = countCI (dictSet d e.1 e.2) n := this
      _ = countCI d n := countCI_dictSet_ne _ _ _ _ (h e (List.mem_cons_self _ _))

theorem popHeader_countCI_le (d : Dict) (n m : Str) :
    countCI (popHeader d n).2 m ≤ countCI d m := by
  induction d with
  | nil => simp [popHeader]
  | cons e rest ih =>
    by_cases he : pyLower e.1 = pyLower n
    · simp only [popHeader, he, if_true, countCI]
      omega
    · simp only [popHeader, he, if_false, countCI]
      omega

theorem popHeader_countCI_self (d : Dict) (n : Str) (h : countCI d n ≤ 1) :
    countCI (popHeader d n).2 n = 0 := by
  induction d with
  | nil => simp [popHeader, countCI]
  | cons e rest ih =>
    by_cases he : pyLower e.1 = pyLower n
    · simp only [popHeader, he, if_true]
      simp only [countCI, he, if_true] at h
      have hr : countCI rest n = 0 := by omega
      exact hr
    · simp only [popHeader, he, if_false, countCI, he]
      simp only [countCI, he, if_false] at h
      simpa using ih (by omega)

/-! ### Characterization of the fetch-and-mutate phase -/

theorem repeat_pre_eq (store : Store) (item_id : Nat)
    (replacements : Option (List (Str × Str))) (add_headers : Option Dict)
    (body : Option Str) (item : TrafficItem)
    (hstore : store item_id (get_params 0) = .ok item)
    (hne : item.request_text.getD [] ≠ []) :
    repeat_pre store item_id replacements add_headers body = .ok
      { method := (repeat_parsed item replacements).method
        url := repeat_scheme item ++ "://".data ++ repeat_host item replacements
          ++ (repeat_parsed item replacements).path
        headers := repeat_mut_headers item replacements add_headers item_id
        req_body := body.getD (repeat_parsed item replacements).body } := by
  unfold repeat_pre
  rw [hstore]
  simp only [if_neg hne]
  cases body <;>
    rfl

theorem repeat_pre_err (store : Store) (item_id : Nat)
    (replacements : Option (List (Str × Str))) (add_headers : Option Dict)
    (body : Option Str) (item : TrafficItem)
    (hstore : store item_id (get_params 0) = .ok item)
    (hempty : item.request_text.getD [] = []) :
    repeat_pre store item_id replacements add_headers body
      = .error (.runtimeError (noRequestTextMsg item_id)) := by
  unfold repeat_pre
  rw [hstore]
  simp only [if_pos hempty]

theorem popHeader_countCI_ne (d : Dict) (n m : Str) (h : pyLower n ≠ pyLower m) :
    countCI (popHeader d n).2 m = countCI d m := by
  induction d with
  | nil => simp [popHeader]
  | cons e rest ih =>
    by_cases he : pyLower e.1 = pyLower n
    · have hne : pyLower e.1 ≠ pyLower m := by rw [he]; exact h
      simp [popHeader, he, countCI, hne, h]
    · simp only [popHeader, he, if_false, countCI, ih]

theorem repeat_pre_store_err (store : Store) (item_id : Nat)
    (replacements : Option (List (Str × Str))) (add_headers : Option Dict)
    (body : Option Str) (e : PyExc)
    (hstore : store item_id (get_params 0) = .error e) :
    repeat_pre store item_id replacements add_headers body = .error e := by
  unfold repeat_pre
  rw [hstore]

/-- Whatever the store holds, a successful fetch-and-mutate phase ends in
the `X-Burp-MCP` marker assignment, so the exact-key lookup yields the
marker value. -/
theorem repeat_pre_marker (store : Store) (item_id : Nat)
    (replacements : Option (List (Str × Str))) (add_headers : Option Dict)
    (body : Option Str) (pre : PreSend)
    (h : repeat_pre store item_id replacements add_headers body = .ok pre) :
    dictGet pre.headers "X-Burp-MCP".data
      = some ("repeat:".data ++ natToStr item_id) := by
  cases hstore : store item_id (get_params 0) with
  | error e =>
    rw [repeat_pre_store_err store item_id replacements add_headers body e hstore] at h
    exact absurd h (by simp)
  | ok item =>
    by_cases hne : item.request_text.getD [] = []
    · rw [repeat_pre_err store item_id replacements add_headers body item hstore hne] at h
      exact absurd h (by simp)
    · rw [repeat_pre_eq store item_id replacements add_headers body item hstore hne] at h
      rw [Except.ok.injEq] at h
      subst h
      exact dictGet_dictSet_self _ _ _

/-- A successful fetch-and-mutate phase with a full-body replacement uses
the replacement as the post-mutation body. -/
theorem repeat_pre_body_some (store : Store) (item_id : Nat)
    (replacements : Option (List (Str × Str))) (add_headers : Option Dict)
    (b : Str) (pre : PreSend)
    (h : repeat_pre store item_id replacements add_headers (some b) = .ok pre) :
    pre.req_body = b := by
  cases hstore : store item_id (get_params 0) with
  | error e =>
    rw [repeat_pre_store_err store item_id replacements add_headers (some b) e hstore] at h
    exact absurd h (by simp)
  | ok item =>
    by_cases hne : item.request_text.getD [] = []
    · rw [repeat_pre_err store item_id replacements add_headers (some b) item hstore hne] at h
      exact absurd h (by simp)
    · rw [repeat_pre_eq store item_id replacements add_headers (some b) item hstore hne] at h
      rw [Except.ok.injEq] at h
      subst h
      rfl

/-! ### Strip lemmas -/

theorem mem_stripLeft {x : Char} {s : Str} (h : x ∈ stripLeft s) : x ∈ s := by
  induction s with
  | nil => simpa [stripLeft] using h
  | cons a rest ih =>
    rw [stripLeft, List.dropWhile_cons] at h
    split at h
    · exact List.mem_cons_of_mem _ (ih h)
    · exact h

theorem mem_stripRight {x : Char} {s : Str} (h : x ∈ stripRight s) : x ∈ s := by
  induction s with
  | nil => simpa [stripRight] using h
  | cons a rest ih =>
    unfold stripRight at h
    cases hm : stripRight rest with
    | nil =>
      rw [hm] at h
      by_cases ha : pyIsSpace a = true
      · rw [if_pos ha] at h
        simp at h
      · rw [if_neg ha] at h
        rw [List.mem_singleton] at h
        exact h ▸ List.mem_cons_self a rest
    | cons y ys =>
      rw [hm] at h
      rw [List.mem_cons] at h
      rcases h with h | h
      · exact h ▸ List.mem_cons_self a rest
      · exact List.mem_cons_of_mem _ (ih (hm ▸ h))

theorem mem_pyStrip {x : Char} {s : Str} (h : x ∈ pyStrip s) : x ∈ s :=
  mem_stripLeft (mem_stripRight h)

theorem stripLeft_head_not_space {s : Str} {c : Char} {cs : Str}
    (h : stripLeft s = c :: cs) : pyIsSpace c = false := by
  induction s with
  | nil => simp [stripLeft] at h
  | cons a rest ih =>
    rw [stripLeft, List.dropWhile_cons] at h
    split at h
    · exact ih h
    · cases h
      simpa using (by assumption : ¬ pyIsSpace c = true)

theorem stripLeft_of_head {c : Char} (hc : pyIsSpace c = false) (s : Str) :
    stripLeft (c :: s) = c :: s := by
  rw [stripLeft, List.dropWhile_cons]
  simp [hc]

theorem stripRight_getLast_not_space {s : Str} {c : Char}
    (h : (stripRight s).getLast? = some c) : pyIsSpace c = false := by
  induction s with
  | nil => simp [stripRight] at h
  | cons a rest ih =>
    unfold stripRight at h
    cases hm : stripRight rest with
    | nil =>
      rw [hm] at h
      by_cases ha : pyIsSpace a = true
      · rw [if_pos ha] at h
        simp at h
      · rw [if_neg ha] at h
        rw [List.getLast?_singleton, Option.some.injEq] at h
        subst h
        simpa using ha
    | cons y ys =>
      rw [hm] at h
      rw [List.getLast?_cons_cons] at h
      exact ih (hm ▸ h)

theorem stripRight_head? (c : Char) (rest : Str) :
    stripRight (c :: rest) = [] ∨ (stripRight (c :: rest)).head? = some c := by
  unfold stripRight
  cases stripRight rest with
  | nil =>
    by_cases hc : pyIsSpace c = true
    · left
      rw [if_pos hc]
    · right
      rw [if_neg hc]
      rfl
  | cons y ys =>
    right
    rfl

theorem stripRight_of_getLast : ∀ (s : Str) (c : Char),
    s.getLast? = some c → pyIsSpace c = false → stripRight s = s := by
  intro s
  induction s with
  | nil => intro c h _; simp at h
  | cons a rest ih =>
    intro c h hc
    cases rest with
    | nil =>
      simp only [List.getLast?_singleton, Option.some.injEq] at h
      subst h
      simp [stripRight, hc]
    | cons b l =>
      rw [List.getLast?_cons_cons] at h
      have := ih c h hc
      unfold stripRight
      rw [this]

theorem pyStrip_of_clean {s : Str}
    (hh : ∀ c, s.head? = some c → pyIsSpace c = false)
    (hl : ∀ c, s.getLast? = some c → pyIsSpace c = false) : pyStrip s = s := by
  cases s with
  | nil => rfl
  | cons a rest =>
    have ha : pyIsSpace a = false := hh a rfl
    unfold pyStrip
    rw [stripLeft_of_head ha]
    cases hL : (a :: rest).getLast? with
    | none => simp at hL
    | some c => exact stripRight_of_getLast _ c hL (hl c hL)

theorem stripRight_head?_some {l : Str} {c : Char}
    (h : (stripRight l).head? = some c) : l.head? = some c := by
  cases l with
  | nil => simp [stripRight] at h
  | cons a rest =>
    rcases stripRight_head? a rest with he | he
    · rw [he] at h
      simp at h
    · rw [he] at h
      cases h
      rfl

theorem pyStrip_idem (s : Str) : pyStrip (pyStrip s) = pyStrip s := by
  apply pyStrip_of_clean
  · intro c hc
    have h1 : (stripLeft s).head? = some c := stripRight_head?_some hc
    cases hsl : stripLeft s with
    | nil => rw [hsl] at h1; simp at h1
    | cons a tl =>
      rw [hsl] at h1
      cases h1
      exact stripLeft_head_not_space hsl
  · intro c hc
    exact stripRight_getLast_not_space hc

theorem pyStrip_cons_space {c : Char} (hc : pyIsSpace c = true) (s : Str) :
    pyStrip (c :: s) = pyStrip s := by
  unfold pyStrip stripLeft
  rw [List.dropWhile_cons]
  simp [hc]

/-! ### splitOnCh and joinCh lemmas -/

theorem mem_of_getLast?_eq {α : Type} {l : List α} {x : α}
    (h : l.getLast? = some x) : x ∈ l := by
  obtain ⟨hne, hx⟩ := List.mem_getLast?_eq_getLast (by rw [h]; rfl)
  exact hx ▸ List.getLast_mem hne

theorem splitOnCh_ne_nil (c : Char) (s : Str) : splitOnCh c s ≠ [] := by
  induction s with
  | nil => simp [splitOnCh]
  | cons x xs ih =>
    unfold splitOnCh
    cases hm : splitOnCh c xs with
    | nil => simp
    | cons h t =>
      by_cases hx : x = c
      · simp [hx]
      · simp [hx]

theorem splitOnCh_exists (c : Char) (s : Str) :
    ∃ hd t, splitOnCh c s = hd :: t := by
  cases hm : splitOnCh c s with
  | nil => exact absurd hm (splitOnCh_ne_nil c s)
  | cons hd t => exact ⟨hd, t, rfl⟩

theorem splitOnCh_cons_eq {c : Char} {xs : Str} {hd : Str} {t : List Str}
    (hm : splitOnCh c xs = hd :: t) (x : Char) :
    splitOnCh c (x :: xs)
      = if x = c then [] :: hd :: t else (x :: hd) :: t := by
  unfold splitOnCh
  rw [hm]

theorem not_mem_of_mem_splitOnCh {c : Char} {l s : Str}
    (h : l ∈ splitOnCh c s) : c ∉ l := by
  induction s generalizing l with
  | nil =>
    simp [splitOnCh] at h
    subst h
    simp
  | cons x xs ih =>
    obtain ⟨hd, t, hm⟩ := splitOnCh_exists c xs
    rw [splitOnCh_cons_eq hm x] at h
    by_cases hx : x = c
    · rw [if_pos hx] at h
      rcases List.mem_cons.mp h with h1 | h1
      · subst h1; simp
      · exact ih (by rw [hm]; exact h1)
    · rw [if_neg hx] at h
      rcases List.mem_cons.mp h with h1 | h1
      · subst h1
        have hhd : c ∉ hd := ih (by rw [hm]; exact List.mem_cons_self hd t)
        intro hc
        rcases List.mem_cons.mp hc with hc | hc
        · exact hx hc.symm
        · exact hhd hc
      · exact ih (by rw [hm]; exact List.mem_cons_of_mem hd h1)

theorem mem_of_mem_splitOnCh {c x : Char} {l s : Str}
    (hl : l ∈ splitOnCh c s) (hx : x ∈ l) : x ∈ s := by
  induction s generalizing l with
  | nil =>
    simp [splitOnCh] at hl
    subst hl
    simp at hx
  | cons a xs ih =>
    obtain ⟨hd, t, hm⟩ := splitOnCh_exists c xs
    rw [splitOnCh_cons_eq hm a] at hl
    by_cases ha : a = c
    · rw [if_pos ha] at hl
      rcases List.mem_cons.mp hl with h1 | h1
      · subst h1; simp at hx
      · exact List.mem_cons_of_mem _ (ih (by rw [hm]; exact h1) hx)
    · rw [if_neg ha] at hl
      rcases List.mem_cons.mp hl with h1 | h1
      · subst h1
        rcases List.mem_cons.mp hx with hx1 | hx1
        · exact hx1 ▸ List.mem_cons_self a xs
        · exact List.mem_cons_of_mem _
            (ih (by rw [hm]; exact List.mem_cons_self hd t) hx1)
      · exact List.mem_cons_of_mem _ (ih (by rw [hm]; exact List.mem_cons_of_mem hd h1) hx)

theorem splitOnCh_of_not_mem {c : Char} {s : Str} (h : c ∉ s) :
    splitOnCh c s = [s] := by
  induction s with
  | nil => rfl
  | cons x xs ih =>
    have hx : x ≠ c := fun he => h (he ▸ List.mem_cons_self x xs)
    have hxs : c ∉ xs := fun hm => h (List.mem_cons_of_mem _ hm)
    rw [splitOnCh_cons_eq (ih hxs) x, if_neg hx]

theorem splitOnCh_append {c : Char} {l : Str} (hl : c ∉ l) (rest : Str) :
    splitOnCh c (l ++ c :: rest) = l :: splitOnCh c rest := by
  induction l with
  | nil =>
    simp only [List.nil_append]
    obtain ⟨hd, t, hm⟩ := splitOnCh_exists c rest
    rw [splitOnCh_cons_eq hm c, if_pos rfl, hm]
  | cons x xs ih =>
    have hx : x ≠ c := fun he => hl (he ▸ List.mem_cons_self x xs)
    have hxs : c ∉ xs := fun hm => hl (List.mem_cons_of_mem _ hm)
    have hin := ih hxs
    obtain ⟨hd2, t2, hm2⟩ := splitOnCh_exists c rest
    rw [hm2] at hin
    rw [List.cons_append, splitOnCh_cons_eq hin x, if_neg hx, hm2]

theorem splitOnCh_joinCh {c : Char} : ∀ {ls : List Str}, ls ≠ [] →
    (∀ l ∈ ls, c ∉ l) → splitOnCh c (joinCh c ls) = ls := by
  intro ls
  induction ls with
  | nil => intro h; exact absurd rfl h
  | cons l ls ih =>
    intro _ hmem
    cases ls with
    | nil =>
      show splitOnCh c l = [l]
      exact splitOnCh_of_not_mem (hmem l (List.mem_cons_self _ _))
    | cons l2 ls2 =>
      show splitOnCh c (l ++ c :: joinCh c (l2 :: ls2)) = l :: l2 :: ls2
      rw [splitOnCh_append (hmem l (List.mem_cons_self _ _))]
      rw [ih (by simp) (fun l2 hl2 => hmem l2 (List.mem_cons_of_mem _ hl2))]

theorem splitOnCh_first_cons {c x : Char} {xs : Str} (hx : x ≠ c) :
    ∃ t rest, splitOnCh c (x :: xs) = (x :: t) :: rest := by
  obtain ⟨hd, t, hm⟩ := splitOnCh_exists c xs
  exact ⟨hd, t, by rw [splitOnCh_cons_eq hm x, if_neg hx]⟩

theorem joinCh_head? (c : Char) (l : Str) (ls : List Str) (hl : l ≠ []) :
    (joinCh c (l :: ls)).head? = l.head? := by
  cases ls with
  | nil => rfl
  | cons l2 ls2 =>
    cases l with
    | nil => exact absurd rfl hl
    | cons a tl => rfl

theorem joinCh_ne_nil (c : Char) (l : Str) (ls : List Str) (hl : l ≠ []) :
    joinCh c (l :: ls) ≠ [] := by
  cases ls with
  | nil => exact hl
  | cons l2 ls2 =>
    cases l with
    | nil => exact absurd rfl hl
    | cons a tl => simp [joinCh]

/-! ### hasDoubleNl and partitionBlank lemmas -/

theorem hasDoubleNl_of_not_mem {s : Str} (h : '\n' ∉ s) : hasDoubleNl s = false := by
  induction s with
  | nil => rfl
  | cons a rest ih =>
    have ha : a ≠ '\n' := fun he => h (he ▸ List.mem_cons_self _ _)
    unfold hasDoubleNl
    rw [if_neg (fun hc => ha hc.1)]
    exact ih (fun hm => h (List.mem_cons_of_mem _ hm))

theorem hasDoubleNl_cons_false {a : Char} {s : Str}
    (h : hasDoubleNl (a :: s) = false) : hasDoubleNl s = false := by
  unfold hasDoubleNl at h
  by_cases hc : a = '\n' ∧ s.head? = some '\n'
  · rw [if_pos hc] at h
    exact absurd h (by simp)
  · rwa [if_neg hc] at h

theorem hasDoubleNl_append {a b : Str} (ha : hasDoubleNl a = false)
    (hb : hasDoubleNl b = false)
    (hj : a.getLast? = some '\n' → b.head? ≠ some '\n') :
    hasDoubleNl (a ++ b) = false := by
  induction a with
  | nil => simpa using hb
  | cons x xs ih =>
    rw [List.cons_append]
    unfold hasDoubleNl
    rw [if_neg ?hcond]
    case hcond =>
      rintro ⟨hx, hh⟩
      cases xs with
      | nil =>
        simp only [List.nil_append] at hh
        exact hj (by simp [hx]) hh
      | cons y ys =>
        simp only [List.cons_append, List.head?_cons, Option.some.injEq] at hh
        unfold hasDoubleNl at ha
        rw [if_pos ⟨hx, by simp [hh]⟩] at ha
        exact absurd ha (by simp)
    · refine ih (hasDoubleNl_cons_false ha) ?_
      intro hgl
      cases xs with
      | nil => simp at hgl
      | cons y ys =>
        exact hj (by rw [List.getLast?_cons_cons]; exact hgl)

theorem partitionBlank_append {a : Str} (ha : hasDoubleNl a = false)
    (hl : a.getLast? ≠ some '\n') (b : Str) :
    partitionBlank (a ++ '\n' :: '\n' :: b) = (a, b) := by
  induction a with
  | nil =>
    simp only [List.nil_append]
    unfold partitionBlank
    rw [if_pos ⟨rfl, rfl⟩]
    rfl
  | cons x xs ih =>
    rw [List.cons_append]
    unfold partitionBlank
    rw [if_neg ?hcond]
    case hcond =>
      rintro ⟨hx, hh⟩
      cases xs with
      | nil => exact hl (by simp [hx])
      | cons y ys =>
        simp only [List.cons_append, List.head?_cons, Option.some.injEq] at hh
        unfold hasDoubleNl at ha
        rw [if_pos ⟨hx, by simp [hh]⟩] at ha
        exact absurd ha (by simp)
    · have hxs2 : hasDoubleNl xs = false := hasDoubleNl_cons_false ha
      have hxl : xs.getLast? ≠ some '\n' := by
        cases xs with
        | nil => simp
        | cons y ys =>
          intro hc
          exact hl (by rw [List.getLast?_cons_cons]; exact hc)
      rw [ih hxs2 hxl]

theorem mem_partitionBlank_fst {x : Char} {s : Str}
    (h : x ∈ (partitionBlank s).1) : x ∈ s := by
  induction s with
  | nil => simpa [partitionBlank] using h
  | cons a rest ih =>
    unfold partitionBlank at h
    by_cases hc : a = '\n' ∧ rest.head? = some '\n'
    · rw [if_pos hc] at h
      simp at h
    · rw [if_neg hc] at h
      rcases List.mem_cons.mp h with h | h
      · exact h ▸ List.mem_cons_self a rest
      · exact List.mem_cons_of_mem _ (ih h)

theorem mem_partitionBlank_snd {x : Char} {s : Str}
    (h : x ∈ (partitionBlank s).2) : x ∈ s := by
  induction s with
  | nil => simpa [partitionBlank] using h
  | cons a rest ih =>
    unfold partitionBlank at h
    by_cases hc : a = '\n' ∧ rest.head? = some '\n'
    · rw [if_pos hc] at h
      exact List.mem_cons_of_mem _ (List.mem_of_mem_tail h)
    · rw [if_neg hc] at h
      exact List.mem_cons_of_mem _ (ih h)

/-! ### splitFirst lemmas -/

theorem splitFirst_fst_not_mem (c : Char) (s : Str) : c ∉ (splitFirst c s).1 := by
  induction s with
  | nil => simp [splitFirst]
  | cons x xs ih =>
    unfold splitFirst
    by_cases hx : x = c
    · rw [if_pos hx]
      simp
    · rw [if_neg hx]
      intro hc
      rcases List.mem_cons.mp hc with hc | hc
      · exact hx hc.symm
      · exact ih hc

theorem mem_splitFirst_fst {c x : Char} {s : Str}
    (h : x ∈ (splitFirst c s).1) : x ∈ s := by
  induction s with
  | nil => simpa [splitFirst] using h
  | cons a xs ih =>
    unfold splitFirst at h
    by_cases ha : a = c
    · rw [if_pos ha] at h
      simp at h
    · rw [if_neg ha] at h
      rcases List.mem_cons.mp h with h | h
      · exact h ▸ List.mem_cons_self a xs
      · exact List.mem_cons_of_mem _ (ih h)

theorem mem_splitFirst_snd {c x : Char} {s : Str}
    (h : x ∈ (splitFirst c s).2) : x ∈ s := by
  induction s with
  | nil => simpa [splitFirst] using h
  | cons a xs ih =>
    unfold splitFirst at h
    by_cases ha : a = c
    · rw [if_pos ha] at h
      exact List.mem_cons_of_mem _ h
    · rw [if_neg ha] at h
      exact List.mem_cons_of_mem _ (ih h)

theorem splitFirst_append {c : Char} {k : Str} (hk : c ∉ k) (v : Str) :
    splitFirst c (k ++ c :: v) = (k, v) := by
  induction k with
  | nil => simp [splitFirst]
  | cons x xs ih =>
    have hx : x ≠ c := fun he => hk (he ▸ List.mem_cons_self x xs)
    have hxs : c ∉ xs := fun hm => hk (List.mem_cons_of_mem _ hm)
    rw [List.cons_append]
    unfold splitFirst
    rw [if_neg hx, ih hxs]

/-! ### Carriage-return elimination by the newline normalization -/

theorem pyReplaceGoF_cr_free : ∀ (fuel : Nat) (s : Str), s.length ≤ fuel →
    '\r' ∉ pyReplaceGoF ['\r'] ['\n'] fuel s := by
  intro fuel
  induction fuel with
  | zero =>
    intro s hs
    have hnil : s = [] := List.eq_nil_of_length_eq_zero (Nat.le_zero.mp hs)
    subst hnil
    simp [pyReplaceGoF]
  | succ n ih =>
    intro s hs
    cases s with
    | nil => simp [pyReplaceGoF]
    | cons c rest =>
      unfold pyReplaceGoF
      have hlen : rest.length ≤ n := by
        simpa using hs
      by_cases hc : c = '\r'
      · have hp : (['\r'] : Str).isPrefixOf (c :: rest) = true := by
          simp [List.isPrefixOf, hc]
        rw [if_pos hp]
        intro hmem
        rcases List.mem_append.mp hmem with hmem | hmem
        · simp at hmem
        · have : ('\r' : Char) ∉ pyReplaceGoF ['\r'] ['\n'] n (rest.drop 0) := by
            refine ih (rest.drop 0) ?_
            simpa using hlen
          exact this (by simpa using hmem)
      · have hp : (['\r'] : Str).isPrefixOf (c :: rest) = false := by
          simp [List.isPrefixOf]
          exact fun he => hc he.symm
        rw [if_neg (by simp [hp])]
        intro hmem
        rcases List.mem_cons.mp hmem with hmem | hmem
        · exact hc hmem.symm
        · exact ih rest hlen hmem

theorem pyReplaceStr_cr_free (s : Str) : '\r' ∉ pyReplaceStr s "\r".data "\n".data := by
  unfold pyReplaceStr
  rw [if_neg (by decide)]
  rw [show ("\r".data : Str) = ['\r'] from rfl, show ("\n".data : Str) = ['\n'] from rfl]
  exact pyReplaceGoF_cr_free s.length s le_rfl

/-! ### Header-dict rebuild lemmas -/

theorem dictGet_append_of_none {d1 : Dict} {k : Str} (h : dictGet d1 k = none)
    (d2 : Dict) : dictGet (d1 ++ d2) k = dictGet d2 k := by
  induction d1 with
  | nil => simp
  | cons e rest ih =>
    simp only [dictGet] at h
    by_cases he : e.1 = k
    · rw [if_pos he] at h
      exact absurd h (by simp)
    · rw [if_neg he] at h
      simp only [List.cons_append, dictGet, if_neg he]
      exact ih h

theorem foldl_dictSet_append : ∀ (hdrs acc : Dict),
    (∀ e ∈ hdrs, dictHasKey acc e.1 = false) → (dictKeys hdrs).Nodup →
    hdrs.foldl (fun d e => dictSet d e.1 e.2) acc = acc ++ hdrs := by
  intro hdrs
  induction hdrs with
  | nil =>
    intro acc _ _
    simp
  | cons e rest ih =>
    intro acc hna hnd
    have h1 : dictSet acc e.1 e.2 = acc ++ [(e.1, e.2)] :=
      dictSet_of_not_has _ _ _ (hna e (List.mem_cons_self _ _))
    have hnd' : (List.map (fun x => x.1) (e :: rest)).Nodup := hnd
    rw [List.map_cons] at hnd'
    have hcons := List.nodup_cons.mp hnd'
    rw [List.foldl_cons, h1, ih (acc ++ [(e.1, e.2)]) ?ha ?hnd2]
    · simp [List.append_assoc]
    case ha =>
      intro e' he'
      have hne : e'.1 ≠ e.1 := by
        intro hc
        exact hcons.1 (hc ▸ List.mem_map_of_mem (fun x => x.1) he')
      have hacc : dictGet acc e'.1 = none := by
        have := hna e' (List.mem_cons_of_mem _ he')
        unfold dictHasKey at this
        exact Option.not_isSome_iff_eq_none.mp (by simp [this])
      unfold dictHasKey
      rw [dictGet_append_of_none hacc]
      simp only [dictGet, Option.isSome_some, Option.isSome_none]
      rw [if_neg (fun h => hne h.symm)]
      rfl
    case hnd2 =>
      exact hcons.2

theorem parseHeaderFold_rebuild {e : Str × Str} (he : entryClean e) (acc : Dict) :
    parseHeaderFold acc (e.1 ++ ": ".data ++ e.2) = dictSet acc e.1 e.2 := by
  obtain ⟨hk_colon, _, _, hk_strip, _, _, hv_strip⟩ := he
  unfold parseHeaderFold
  rw [if_pos ?hmem]
  case hmem =>
    simp only [List.mem_append]
    exact Or.inl (Or.inr (by decide))
  have hline : e.1 ++ ": ".data ++ e.2 = e.1 ++ ':' :: (' ' :: e.2) := by
    rw [List.append_assoc]
    rfl
  rw [hline, splitFirst_append hk_colon]
  rw [hk_strip, pyStrip_cons_space (by decide), hv_strip]

theorem foldl_parseHeaderFold_map (hdrs : Dict)
    (hclean : ∀ e ∈ hdrs, entryClean e) :
    ∀ acc, (hdrs.map (fun e => e.1 ++ ": ".data ++ e.2)).foldl parseHeaderFold acc
      = hdrs.foldl (fun d e => dictSet d e.1 e.2) acc := by
  induction hdrs with
  | nil => intro acc; rfl
  | cons e rest ih =>
    intro acc
    simp only [List.map_cons, List.foldl_cons]
    rw [parseHeaderFold_rebuild (hclean e (List.mem_cons_self _ _))]
    exact ih (fun e' h' => hclean e' (List.mem_cons_of_mem _ h')) _

theorem headers_rebuild (hdrs : Dict) (hclean : ∀ e ∈ hdrs, entryClean e)
    (hnd : (dictKeys hdrs).Nodup) :
    (hdrs.map (fun e => e.1 ++ ": ".data ++ e.2)).foldl parseHeaderFold [] = hdrs := by
  rw [foldl_parseHeaderFold_map hdrs hclean []]
  rw [foldl_dictSet_append hdrs [] (fun e _ => rfl) hnd]
  simp

/-! ### Replacement is the identity when the pattern head is absent -/

theorem pyReplaceGoF_id {c : Char} {old new : Str} (hold : old.head? = some c) :
    ∀ (fuel : Nat) (s : Str), c ∉ s → pyReplaceGoF old new fuel s = s := by
  intro fuel
  induction fuel with
  | zero =>
    intro s _
    cases s <;> rfl
  | succ n ih =>
    intro s hs
    cases s with
    | nil => rfl
    | cons a rest =>
      unfold pyReplaceGoF
      have hpf : old.isPrefixOf (a :: rest) = false := by
        cases old with
        | nil => simp at hold
        | cons o os =>
          simp only [List.head?_cons, Option.some.injEq] at hold
          subst hold
          have hca : ¬ (o == a) = true := by
            simp only [beq_iff_eq]
            intro he
            exact hs (he ▸ List.mem_cons_self a rest)
          simp [List.isPrefixOf, hca]
      rw [if_neg (by simp [hpf])]
      rw [ih rest (fun h => hs (List.mem_cons_of_mem _ h))]

theorem pyReplaceStr_id {c : Char} {old new : Str} (hold : old.head? = some c)
    {s : Str} (hs : c ∉ s) : pyReplaceStr s old new = s := by
  have hne : old ≠ [] := by
    intro h
    rw [h] at hold
    simp at hold
  unfold pyReplaceStr
  rw [if_neg hne]
  exact pyReplaceGoF_id hold s.length s hs

/-! ### joinCh membership and blank-line facts -/

theorem mem_joinCh {x c : Char} : ∀ {ls : List Str}, x ∈ joinCh c ls →
    x = c ∨ ∃ l ∈ ls, x ∈ l := by
  intro ls
  induction ls with
  | nil => intro h; simp [joinCh] at h
  | cons l ls ih =>
    intro h
    cases ls with
    | nil => exact Or.inr ⟨l, List.mem_cons_self _ _, h⟩
    | cons l2 ls2 =>
      rcases List.mem_append.mp h with h | h
      · exact Or.inr ⟨l, List.mem_cons_self _ _, h⟩
      · rcases List.mem_cons.mp h with h | h
        · exact Or.inl h
        · rcases ih h with h | ⟨l2', hl2', hx⟩
          · exact Or.inl h
          · exact Or.inr ⟨l2', List.mem_cons_of_mem _ hl2', hx⟩

theorem joinCh_nl_clean : ∀ (ls : List Str), (∀ l ∈ ls, l ≠ [] ∧ '\n' ∉ l) →
    hasDoubleNl (joinCh '\n' ls) = false ∧
    (∀ cl, (joinCh '\n' ls).getLast? = some cl → cl ≠ '\n') := by
  intro ls
  induction ls with
  | nil =>
    intro _
    refine ⟨rfl, ?_⟩
    intro cl h
    simp [joinCh] at h
  | cons l ls ih =>
    intro hmem
    obtain ⟨hlne, hlnl⟩ := hmem l (List.mem_cons_self _ _)
    cases ls with
    | nil =>
      constructor
      · exact hasDoubleNl_of_not_mem hlnl
      · intro cl hcl hc
        subst hc
        exact hlnl (mem_of_getLast?_eq hcl)
    | cons l2 ls2 =>
      have hrest := ih (fun l' h' => hmem l' (List.mem_cons_of_mem _ h'))
      obtain ⟨hl2ne, hl2nl⟩ := hmem l2 (List.mem_cons_of_mem _ (List.mem_cons_self _ _))
      have hJne : joinCh '\n' (l2 :: ls2) ≠ [] := joinCh_ne_nil '\n' l2 ls2 hl2ne
      have hJhead : (joinCh '\n' (l2 :: ls2)).head? ≠ some '\n' := by
        rw [joinCh_head? '\n' l2 ls2 hl2ne]
        cases l2 with
        | nil => exact absurd rfl hl2ne
        | cons a tl =>
          simp only [List.head?_cons]
          intro hcon
          injection hcon with hcon
          exact hl2nl (hcon ▸ List.mem_cons_self a tl)
      have hb : hasDoubleNl ('\n' :: joinCh '\n' (l2 :: ls2)) = false := by
        unfold hasDoubleNl
        rw [if_neg ?c1]
        · exact hrest.1
        case c1 =>
          rintro ⟨-, hh⟩
          exact hJhead hh
      have hshape : joinCh '\n' (l :: l2 :: ls2)
          = l ++ '\n' :: joinCh '\n' (l2 :: ls2) := rfl
      rw [hshape]
      constructor
      · refine hasDoubleNl_append (hasDoubleNl_of_not_mem hlnl) hb ?_
        intro hgl
        exact False.elim (hlnl (mem_of_getLast?_eq hgl))
      · intro cl hcl
        rw [List.getLast?_append_cons] at hcl
        cases hJ : joinCh '\n' (l2 :: ls2) with
        | nil => exact absurd hJ hJne
        | cons y ys =>
          rw [hJ, List.getLast?_cons_cons] at hcl
          exact hrest.2 cl (by rw [hJ]; exact hcl)

/-! ### Invariants of every parsed request -/

theorem dictSet_forall {P : Str × Str → Prop} {d : Dict} {k v : Str}
    (hd : ∀ e ∈ d, P e) (hkv : P (k, v)) : ∀ e ∈ dictSet d k v, P e := by
  induction d with
  | nil =>
    intro e he
    simp only [dictSet, List.mem_singleton] at he
    exact he ▸ hkv
  | cons a rest ih =>
    intro e he
    unfold dictSet at he
    by_cases ha : a.1 = k
    · rw [if_pos ha] at he
      rcases List.mem_cons.mp he with he | he
      · subst he
        exact ha ▸ hkv
      · exact hd e (List.mem_cons_of_mem _ he)
    · rw [if_neg ha] at he
      rcases List.mem_cons.mp he with he | he
      · exact he ▸ hd a (List.mem_cons_self _ _)
      · exact ih (fun e' h' => hd e' (List.mem_cons_of_mem _ h')) e he

theorem not_mem_dictKeys_of_not_has {d : Dict} {k : Str}
    (h : dictHasKey d k = false) : k ∉ dictKeys d := by
  induction d with
  | nil => simp [dictKeys]
  | cons e rest ih =>
    unfold dictHasKey dictGet at h
    by_cases he : e.1 = k
    · rw [if_pos he] at h
      exact absurd h (by simp)
    · rw [if_neg he] at h
      intro hm
      rcases List.mem_cons.mp hm with hm | hm
      · exact he hm.symm
      · exact ih (by simpa [dictHasKey] using h) hm

theorem dictKeys_nodup_dictSet (d : Dict) (k v : Str)
    (h : (dictKeys d).Nodup) : (dictKeys (dictSet d k v)).Nodup := by
  by_cases hk : dictHasKey d k
  · rw [dictKeys_dictSet_of_has d k v hk]
    exact h
  · rw [dictSet_of_not_has d k v (by simpa using hk)]
    have : dictKeys (d ++ [(k, v)]) = dictKeys d ++ [k] := by
      simp [dictKeys]
    rw [this]
    refine List.Nodup.append h (List.nodup_singleton k) ?_
    intro a ha hb
    rw [List.mem_singleton] at hb
    subst hb
    exact not_mem_dictKeys_of_not_has (by simpa using hk) ha

theorem parseHeaderFold_clean {t : Str} (hcr : '\r' ∉ t) :
    ∀ (ls : List Str) (acc : Dict),
      (∀ l ∈ ls, '\n' ∉ l ∧ (∀ x ∈ l, x ∈ t)) →
      (∀ e ∈ acc, entryClean e) →
      ∀ e ∈ ls.foldl parseHeaderFold acc, entryClean e := by
  intro ls
  induction ls with
  | nil =>
    intro acc _ hacc
    simpa using hacc
  | cons line rest ih =>
    intro acc hls hacc
    rw [List.foldl_cons]
    refine ih _ (fun l hl => hls l (List.mem_cons_of_mem _ hl)) ?_
    obtain ⟨hlnl, hlsub⟩ := hls line (List.mem_cons_self _ _)
    unfold parseHeaderFold
    by_cases hcolon : ':' ∈ line
    · rw [if_pos hcolon]
      refine dictSet_forall hacc ?_
      refine ⟨?_, ?_, ?_, pyStrip_idem _, ?_, ?_, pyStrip_idem _⟩
      · intro hc
        exact splitFirst_fst_not_mem ':' line (mem_pyStrip hc)
      · intro hc
        exact hlnl (mem_splitFirst_fst (mem_pyStrip hc))
      · intro hc
        exact hcr (hlsub _ (mem_splitFirst_fst (mem_pyStrip hc)))
      · intro hc
        exact hlnl (mem_splitFirst_snd (mem_pyStrip hc))
      · intro hc
        exact hcr (hlsub _ (mem_splitFirst_snd (mem_pyStrip hc)))
    · rw [if_neg hcolon]
      exact hacc

theorem parseHeaderFold_nodup :
    ∀ (ls : List Str) (acc : Dict), (dictKeys acc).Nodup →
      (dictKeys (ls.foldl parseHeaderFold acc)).Nodup := by
  intro ls
  induction ls with
  | nil =>
    intro acc h
    simpa using h
  | cons line rest ih =>
    intro acc h
    rw [List.foldl_cons]
    refine ih _ ?_
    unfold parseHeaderFold
    by_cases hcolon : ':' ∈ line
    · rw [if_pos hcolon]
      exact dictKeys_nodup_dictSet _ _ _ h
    · rw [if_neg hcolon]
      exact h

theorem parseAfterNorm_clean {t : Str} (hcr : '\r' ∉ t) :
    parsedClean (parseAfterNorm t) := by
  obtain ⟨l0, ltl, hlines⟩ := splitOnCh_exists '\n' (partitionBlank t).1
  obtain ⟨p0, ptl, hparts⟩ := splitOnCh_exists ' ' (pyStrip l0)
  have hl0mem : l0 ∈ splitOnCh '\n' (partitionBlank t).1 := by
    rw [hlines]
    exact List.mem_cons_self _ _
  have hl0nl : '\n' ∉ l0 := not_mem_of_mem_splitOnCh hl0mem
  have hl0sub : ∀ x ∈ l0, x ∈ t := fun x hx =>
    mem_partitionBlank_fst (mem_of_mem_splitOnCh hl0mem hx)
  have htok : ∀ p ∈ splitOnCh ' ' (pyStrip l0), tokenClean p := by
    intro p hp
    refine ⟨not_mem_of_mem_splitOnCh hp, ?_, ?_⟩
    · intro hnl
      exact hl0nl (mem_pyStrip (mem_of_mem_splitOnCh hp hnl))
    · intro hr
      exact hcr (hl0sub _ (mem_pyStrip (mem_of_mem_splitOnCh hp hr)))
  have hlrest : ∀ l ∈ ltl, '\n' ∉ l ∧ (∀ x ∈ l, x ∈ t) := by
    intro l hl
    have hmem : l ∈ splitOnCh '\n' (partitionBlank t).1 := by
      rw [hlines]
      exact List.mem_cons_of_mem _ hl
    exact ⟨not_mem_of_mem_splitOnCh hmem,
      fun x hx => mem_partitionBlank_fst (mem_of_mem_splitOnCh hmem hx)⟩
  unfold parseAfterNorm
  simp only [hlines, List.headD_cons, List.drop_succ_cons, List.drop_zero, hparts]
  refine ⟨?_, ?_, ?_, ?_, ?_, ?_, pyStrip_idem _⟩
  · exact htok p0 (by rw [hparts]; exact List.mem_cons_self _ _)
  · intro c cs hp0
    cases hsl : pyStrip l0 with
    | nil =>
      rw [hsl, show splitOnCh ' ' ([] : Str) = [[]] from rfl] at hparts
      injection hparts with h1 h2
      rw [← h1] at hp0
      exact absurd hp0 (by simp)
    | cons a tl =>
      have hhead : (stripLeft l0).head? = some a := by
        have h1 : (stripRight (stripLeft l0)).head? = some a := by
          rw [show stripRight (stripLeft l0) = pyStrip l0 from rfl, hsl]
          rfl
        exact stripRight_head?_some h1
      have ha : pyIsSpace a = false := by
        cases hsl2 : stripLeft l0 with
        | nil => rw [hsl2] at hhead; simp at hhead
        | cons b tl2 =>
          rw [hsl2] at hhead
          simp only [List.head?_cons, Option.some.injEq] at hhead
          exact hhead ▸ stripLeft_head_not_space hsl2
      have hane : a ≠ ' ' := by
        intro he
        rw [he] at ha
        simp [pyIsSpace] at ha
      obtain ⟨tk, rest, hfc⟩ := @splitOnCh_first_cons ' ' a tl hane
      rw [hsl, hfc] at hparts
      injection hparts with h1 h2
      rw [← h1] at hp0
      injection hp0 with h3 h4
      exact h3 ▸ ha
  · cases ptl with
    | nil => exact (⟨by decide, by decide, by decide⟩ : tokenClean "/".data)
    | cons p1 ptl2 =>
      exact htok p1 (by rw [hparts]; exact List.mem_cons_of_mem _ (List.mem_cons_self _ _))
  · exact parseHeaderFold_clean hcr ltl [] hlrest (by simp)
  · exact parseHeaderFold_nodup ltl [] (by simp [dictKeys])
  · intro hc
    exact hcr (mem_partitionBlank_snd (mem_pyStrip hc))

theorem parse_clean (text : Str) : parsedClean (parseHttpRequest text) :=
  parseAfterNorm_clean (pyReplaceStr_cr_free _)

/-! ### Parsing a rebuilt request -/

theorem parseAfterNorm_build (method path : Str) (hdrs : Dict) (body : Str)
    (hmsp : ' ' ∉ method) (hmnl : '\n' ∉ method) (hm : method ≠ [])
    (hpsp : ' ' ∉ path) (hpnl : '\n' ∉ path) (hp : path ≠ [])
    (hmhead : ∀ c cs, method = c :: cs → pyIsSpace c = false)
    (hclean : ∀ e ∈ hdrs, entryClean e)
    (hnd : (dictKeys hdrs).Nodup)
    (hbstrip : pyStrip body = body) :
    parseAfterNorm
      (joinCh '\n' ((method ++ " ".data ++ path ++ " HTTP/1.1".data)
          :: hdrs.map (fun e => e.1 ++ ": ".data ++ e.2))
        ++ '\n' :: '\n' :: body)
      = ⟨method, path, hdrs, body⟩ := by
  have hRnl : '\n' ∉ method ++ " ".data ++ path ++ " HTTP/1.1".data := by
    intro h
    rcases List.mem_append.mp h with h | h
    · rcases List.mem_append.mp h with h | h
      · rcases List.mem_append.mp h with h | h
        · exact hmnl h
        · simp at h
      · exact hpnl h
    · exact absurd h (by decide)
  have hRne : method ++ " ".data ++ path ++ " HTTP/1.1".data ≠ [] := by
    intro h
    rcases List.append_eq_nil.mp h with ⟨-, h2⟩
    exact absurd h2 (by decide)
  have hHLfact : ∀ l ∈ hdrs.map (fun e => e.1 ++ ": ".data ++ e.2),
      l ≠ [] ∧ '\n' ∉ l := by
    intro l hl
    obtain ⟨e, he, rfl⟩ := List.mem_map.mp hl
    obtain ⟨-, hknl, -, -, hvnl, -, -⟩ := hclean e he
    constructor
    · intro h
      rcases List.append_eq_nil.mp h with ⟨h1, -⟩
      rcases List.append_eq_nil.mp h1 with ⟨-, h2⟩
      exact absurd h2 (by decide)
    · intro h
      rcases List.mem_append.mp h with h | h
      · rcases List.mem_append.mp h with h | h
        · exact hknl h
        · simp at h
      · exact hvnl h
  have hfact : ∀ l ∈ (method ++ " ".data ++ path ++ " HTTP/1.1".data)
      :: hdrs.map (fun e => e.1 ++ ": ".data ++ e.2), l ≠ [] ∧ '\n' ∉ l := by
    intro l hl
    rcases List.mem_cons.mp hl with hl | hl
    · exact hl ▸ ⟨hRne, hRnl⟩
    · exact hHLfact l hl
  have hAp := joinCh_nl_clean _ hfact
  have hAlast : (joinCh '\n' ((method ++ " ".data ++ path ++ " HTTP/1.1".data)
      :: hdrs.map (fun e => e.1 ++ ": ".data ++ e.2))).getLast? ≠ some '\n' :=
    fun hsome => hAp.2 '\n' hsome rfl
  have hstripR : pyStrip (method ++ " ".data ++ path ++ " HTTP/1.1".data)
      = method ++ " ".data ++ path ++ " HTTP/1.1".data := by
    apply pyStrip_of_clean
    · intro c hc
      cases method with
      | nil => exact absurd rfl hm
      | cons m0 ms =>
        have : ((m0 :: ms) ++ " ".data ++ path ++ " HTTP/1.1".data).head?
            = some m0 := by
          simp
        rw [this] at hc
        injection hc with hc
        exact hc ▸ hmhead m0 ms rfl
    · intro c hc
      rw [List.getLast?_append_of_ne_nil _ (by decide : (" HTTP/1.1".data : Str) ≠ [])] at hc
      rw [show ((" HTTP/1.1".data : Str)).getLast? = some '1' from by decide] at hc
      injection hc with hc
      subst hc
      decide
  have hsplitR : splitOnCh ' ' (method ++ " ".data ++ path ++ " HTTP/1.1".data)
      = [method, path, "HTTP/1.1".data] := by
    have h1 : method ++ " ".data ++ path ++ " HTTP/1.1".data
        = method ++ ' ' :: (path ++ ' ' :: "HTTP/1.1".data) := by
      simp
    rw [h1, splitOnCh_append hmsp, splitOnCh_append hpsp,
      splitOnCh_of_not_mem (by decide : ' ' ∉ ("HTTP/1.1".data : Str))]
  simp only [parseAfterNorm, partitionBlank_append hAp.1 hAlast body,
    splitOnCh_joinCh (List.cons_ne_nil _ _) (fun l hl => (hfact l hl).2),
    List.headD_cons, List.drop_succ_cons, List.drop_zero,
    hstripR, hsplitR, headers_rebuild hdrs hclean hnd, hbstrip]

theorem parse_build_of_clean {p : ParsedRequest} (hc : parsedClean p)
    (hm : p.method ≠ []) (hp : p.path ≠ []) :
    parseHttpRequest (buildHttpRequest p) = p := by
  obtain ⟨⟨hmsp, hmnl, hmcr⟩, hmhead, ⟨hpsp, hpnl, hpcr⟩, hclean, hnd, hbcr, hbstrip⟩ := hc
  have hbuild : buildHttpRequest p
      = joinCh '\n' ((p.method ++ " ".data ++ p.path ++ " HTTP/1.1".data)
          :: p.headers.map (fun e => e.1 ++ ": ".data ++ e.2))
        ++ '\n' :: '\n' :: p.body := by
    unfold buildHttpRequest
    rw [List.append_assoc]
    rfl
  have hcrB : '\r' ∉ buildHttpRequest p := by
    rw [hbuild]
    intro h
    rcases List.mem_append.mp h with h | h
    · rcases mem_joinCh h with h | ⟨l, hl, hx⟩
      · exact absurd h (by decide)
      · rcases List.mem_cons.mp hl with hl | hl
        · subst hl
          rcases List.mem_append.mp hx with hx | hx
          · rcases List.mem_append.mp hx with hx | hx
            · rcases List.mem_append.mp hx with hx | hx
              · exact hmcr hx
              · simp at hx
            · exact hpcr hx
          · exact absurd hx (by decide)
        · obtain ⟨e, he, rfl⟩ := List.mem_map.mp hl
          obtain ⟨-, -, hkcr, -, -, hvcr, -⟩ := hclean e he
          rcases List.mem_append.mp hx with hx | hx
          · rcases List.mem_append.mp hx with hx | hx
            · exact hkcr hx
            · simp at hx
          · exact hvcr hx
    · rcases List.mem_cons.mp h with h | h
      · exact absurd h (by decide)
      · rcases List.mem_cons.mp h with h | h
        · exact absurd h (by decide)
        · exact hbcr h
  unfold parseHttpRequest
  rw [pyReplaceStr_id (show (("\r\n".data : Str)).head? = some '\r' from rfl) hcrB]
  rw [pyReplaceStr_id (show (("\r".data : Str)).head? = some '\r' from rfl) hcrB]
  rw [hbuild]
  exact parseAfterNorm_build p.method p.path p.headers p.body
    hmsp hmnl hm hpsp hpnl hp hmhead hclean hnd hbstrip

/-! ### Claim C1 -/

/-- C1, counterexample: the claim says a header override whose name equals
a stored key up to ASCII case replaces that single entry and never leaves
two entries whose names differ only in case. On the code, the override
step is a plain Python dict `update` with exact keys: a parsed
`content-type: a` together with the override `Content-Type: b` leaves the
mutated header collection holding both `content-type` and `Content-Type`,
two entries whose names differ only in case. -/
theorem c1_counterexample :
    (repeat_pre c1store 7 none (some [("Content-Type".data, "b".data)]) none).map
        (fun pre => pre.headers)
      = .ok [("content-type".data, "a".data), ("Content-Type".data, "b".data),
          ("X-Burp-MCP".data, "repeat:7".data)] := by
  rfl

/-- C1 (amended): the header-override step of `repeat`
(`headers.update(add_headers)`, i.e. `dictUpdate`, one `dictSet` per
override) matches existing keys exactly (case-sensitively): when the exact
key is already present the override replaces that entry's value in place,
and otherwise — in particular when an existing key differs only in case —
the override is appended as a new entry. -/
theorem c1_exact_case_override (d : Dict) (k v : Str) :
    dictUpdate d [(k, v)] = dictSet d k v ∧
    (dictHasKey d k = true →
      dictKeys (dictSet d k v) = dictKeys d ∧ dictGet (dictSet d k v) k = some v) ∧
    (dictHasKey d k = false → dictSet d k v = d ++ [(k, v)]) :=
  ⟨dictUpdate_singleton d k v,
    fun h => ⟨dictKeys_dictSet_of_has d k v h, dictGet_dictSet_self d k v⟩,
    fun h => dictSet_of_not_has d k v h⟩

/-- C1 witness: both branches of the amended claim at concrete inputs. -/
theorem c1_exact_case_override_witness :
    (dictHasKey [("content-type".data, "a".data)] "Content-Type".data = false ∧
      dictSet [("content-type".data, "a".data)] "Content-Type".data "b".data
        = [("content-type".data, "a".data), ("Content-Type".data, "b".data)]) ∧
    (dictHasKey [("Content-Type".data, "a".data)] "Content-Type".data = true ∧
      dictGet (dictSet [("Content-Type".data, "a".data)] "Content-Type".data "b".data)
          "Content-Type".data = some "b".data) :=
  ⟨⟨by decide,
      (c1_exact_case_override [("content-type".data, "a".data)]
        "Content-Type".data "b".data).2.2 (by decide)⟩,
    ⟨by decide,
      ((c1_exact_case_override [("Content-Type".data, "a".data)]
        "Content-Type".data "b".data).2.1 (by decide)).2⟩⟩

/-! ### Claim C2 -/

/-- C2, counterexample: the claim says the mutated structure never holds a
`content-length` or `transfer-encoding` header (case-insensitively), even
when the original text carries such a header under several casings. On the
code, `_pop_header` removes only the first case-insensitive match, so a
raw request carrying both `Content-Length: 42` and `content-length: 43`
keeps the second entry through an empty mutation spec. -/
theorem c2_counterexample :
    (repeat_pre c2store 7 none none none).map (fun pre => pre.headers)
      = .ok [("content-length".data, "43".data),
          ("X-Burp-MCP".data, "repeat:7".data)] := by
  rfl

/-- C2 (amended): when the parsed (post-substitution) request holds at
most one `content-length` and at most one `transfer-encoding` entry up to
ASCII case, and the header overrides name neither header, the mutated
structure holds no such header: the strip removes the single existing
entry per name, and the later override update and marker assignment do not
reintroduce one. -/
theorem c2_auto_header_strip (store : Store) (item_id : Nat)
    (replacements : Option (List (Str × Str))) (add_headers : Option Dict)
    (body : Option Str) (item : TrafficItem) (pre : PreSend)
    (hstore : store item_id (get_params 0) = .ok item)
    (hcl : countCI (repeat_parsed item replacements).headers "content-length".data ≤ 1)
    (hte : countCI (repeat_parsed item replacements).headers "transfer-encoding".data ≤ 1)
    (hah : ∀ e ∈ add_headers.getD [],
      pyLower e.1 ≠ "content-length".data ∧ pyLower e.1 ≠ "transfer-encoding".data)
    (hok : repeat_pre store item_id replacements add_headers body = .ok pre) :
    countCI pre.headers "content-length".data = 0 ∧
    countCI pre.headers "transfer-encoding".data = 0 := by
  by_cases hne : item.request_text.getD [] = []
  · rw [repeat_pre_err store item_id replacements add_headers body item hstore hne] at hok
    exact absurd hok (by simp)
  · rw [repeat_pre_eq store item_id replacements add_headers body item hstore hne] at hok
    rw [Except.ok.injEq] at hok
    subst hok
    have hlcl : pyLower "content-length".data = "content-length".data := by decide
    have hlte : pyLower "transfer-encoding".data = "transfer-encoding".data := by decide
    have hstr_cl : countCI (repeat_stripped item replacements) "content-length".data = 0 := by
      unfold repeat_stripped
      rw [popHeader_countCI_ne _ _ _ (by decide)]
      exact popHeader_countCI_self _ _
        (le_trans (popHeader_countCI_le _ _ _) hcl)
    have hstr_te : countCI (repeat_stripped item replacements) "transfer-encoding".data = 0 := by
      unfold repeat_stripped
      refine popHeader_countCI_self _ _ ?_
      rw [popHeader_countCI_ne _ _ _ (by decide)]
      exact le_trans (popHeader_countCI_le _ _ _) hte
    constructor
    · unfold repeat_mut_headers
      rw [countCI_dictSet_ne _ _ _ _ (by decide)]
      cases add_headers with
      | none => exact hstr_cl
      | some ah =>
        by_cases hemp : ah = []
        · simp only [if_pos hemp]
          exact hstr_cl
        · simp only [if_neg hemp]
          rw [countCI_dictUpdate _ _ _
            (fun e he => by rw [hlcl]; exact (hah e he).1)]
          exact hstr_cl
    · unfold repeat_mut_headers
      rw [countCI_dictSet_ne _ _ _ _ (by decide)]
      cases add_headers with
      | none => exact hstr_te
      | some ah =>
        by_cases hemp : ah = []
        · simp only [if_pos hemp]
          exact hstr_te
        · simp only [if_neg hemp]
          rw [countCI_dictUpdate _ _ _
            (fun e he => by rw [hlte]; exact (hah e he).2)]
          exact hstr_te

/-- C2 witness: a request carrying a single `Content-Length: 9` and an
innocuous override; the mutated headers hold no auto-managed header. -/
theorem c2_auto_header_strip_witness :
    countCI c2wpre.headers "content-length".data = 0 ∧
    countCI c2wpre.headers "transfer-encoding".data = 0 :=
  c2_auto_header_strip c2wstore 5 none (some [("X-Custom".data, "1".data)]) none
    c2witem c2wpre rfl (by decide) (by decide) (by decide) rfl

/-! ### Claim C3 -/

/-- C3: the claim says parsing never fails and that a missing or malformed
method token yields the default `GET`. Parsing is indeed total, and the
path does default to `/`, but the `GET` default is unreachable: Python's
`"".split(" ")` is `[""]`, never the empty list, so an empty or blank
request line yields the empty-string method, not `GET` — the code's
`if parts else "GET"` fallback is dead. Evaluated at the failing inputs:
the empty text and a text whose first line is empty. -/
theorem c3_blank_request_line_method :
    (parseHttpRequest []).method = [] ∧
    (parseHttpRequest []).path = "/".data ∧
    (parseHttpRequest "\nHost: a.test\n\nx".data).method = [] ∧
    (parseHttpRequest []).method ≠ "GET".data := by
  decide

/-! ### Claim C4 -/

/-- C4: the round trip. `build` is the spec-modelled serializer (the
source has none). For every raw text whose parse yields a nonempty method
token and a nonempty path token — the well-formedness the claim assumes —
re-parsing the rebuilt text yields exactly the same structured request:
same method, same path, same header collection, same body, even though
the rebuilt text may differ from the original in whitespace, line endings
and ignored (colon-free or duplicate) header lines. -/
theorem c4_roundtrip (text : Str)
    (hm : (parseHttpRequest text).method ≠ [])
    (hp : (parseHttpRequest text).path ≠ []) :
    parseHttpRequest (buildHttpRequest (parseHttpRequest text))
      = parseHttpRequest text :=
  parse_build_of_clean (parse_clean text) hm hp

/-- C4 witness: a concrete CRLF-separated POST; its rebuilt text uses bare
newlines yet re-parses to the identical structure. -/
theorem c4_roundtrip_witness :
    ((parseHttpRequest c4text).method ≠ [] ∧ (parseHttpRequest c4text).path ≠ []) ∧
    parseHttpRequest (buildHttpRequest (parseHttpRequest c4text))
      = parseHttpRequest c4text :=
  ⟨⟨by decide, by decide⟩, c4_roundtrip c4text (by decide) (by decide)⟩

/-! ### Claim C5 -/

/-- C5: `repeat` fetches the item with `max_body=0`, which sends no
truncation parameter at all, and when the fetched item has no request
text (absent field modelled as `none`, or the empty string) it fails with
the `RuntimeError` naming the item — for every transport, so before any
mutation or transmission. -/
theorem c5_notfound_before_send (store : Store) (transport : Transport)
    (item : TrafficItem) (item_id : Nat)
    (replacements : Option (List (Str × Str))) (add_headers : Option Dict)
    (body : Option Str) (max_response_body : Nat)
    (hstore : store item_id (get_params 0) = .ok item)
    (hempty : item.request_text.getD [] = []) :
    get_params 0 = [] ∧
    repeatImpl store transport item_id replacements add_headers body max_response_body
      = .error (.runtimeError (noRequestTextMsg item_id)) := by
  refine ⟨rfl, ?_⟩
  unfold repeatImpl
  rw [repeat_pre_err store item_id replacements add_headers body item hstore hempty]

/-- C5 witness: a store whose item has empty request text; `repeat` fails
with the NotFound-style `RuntimeError` whatever the transport would do. -/
theorem c5_notfound_before_send_witness :
    get_params 0 = [] ∧
    repeatImpl c5wstore c5wtransport 9 none none none 4000
      = .error (.runtimeError (noRequestTextMsg 9)) :=
  c5_notfound_before_send c5wstore c5wtransport c5witem 9 none none none 4000 rfl rfl

/-! ### Claim C6 -/

/-- C6, counterexample: the claim says the outbound host is taken from the
mutated request's `Host` header when present, that header then being
removed before transmission. On the code, the host is popped from the
parsed headers before the overrides are applied: with an original request
carrying no `Host` header and an override `Host: b.test`, the mutated
headers do hold `Host: b.test`, yet the outbound URL uses the item's
recorded host `a.test` and the override entry is not removed. -/
theorem c6_counterexample :
    (repeat_pre c6store 7 none (some [("Host".data, "b.test".data)]) none).map
        (fun pre => (pre.url, dictGet pre.headers "Host".data))
      = .ok ("http://a.test/x".data, some "b.test".data) := by
  rfl

/-- C6 (amended): the outbound scheme is `https` exactly when the item's
recorded URL starts with `https` (plain `http` when absent), and the
outbound host comes from the first case-insensitive `Host` entry of the
request parsed from the substituted raw text — that entry being consumed —
falling back to the item's recorded host when it is missing or empty. The
formula does not mention the header overrides: they are applied after the
host is derived, so an override-supplied `Host` neither determines the
outbound host nor is removed. -/
theorem c6_scheme_host_derivation (store : Store) (item_id : Nat)
    (replacements : Option (List (Str × Str))) (add_headers : Option Dict)
    (body : Option Str) (item : TrafficItem) (pre : PreSend)
    (hstore : store item_id (get_params 0) = .ok item)
    (hok : repeat_pre store item_id replacements add_headers body = .ok pre) :
    pre.url = repeat_scheme item ++ "://".data ++ repeat_host item replacements
      ++ (repeat_parsed item replacements).path ∧
    (add_headers = none →
      countCI pre.headers "host".data
        = countCI (popHeader (repeat_parsed item replacements).headers
            "host".data).2 "host".data) := by
  by_cases hne : item.request_text.getD [] = []
  · rw [repeat_pre_err store item_id replacements add_headers body item hstore hne] at hok
    exact absurd hok (by simp)
  · rw [repeat_pre_eq store item_id replacements add_headers body item hstore hne] at hok
    rw [Except.ok.injEq] at hok
    subst hok
    refine ⟨rfl, ?_⟩
    intro hnone
    subst hnone
    unfold repeat_mut_headers repeat_stripped
    rw [countCI_dictSet_ne _ _ _ _ (by decide),
      popHeader_countCI_ne _ _ _ (by decide),
      popHeader_countCI_ne _ _ _ (by decide)]

/-- C6 witness: an https item whose parsed request carries
`Host: h.test`; the outbound URL uses that host and the entry is gone. -/
theorem c6_scheme_host_derivation_witness :
    (c6wpre.url = repeat_scheme c6witem ++ "://".data ++ repeat_host c6witem none
        ++ (repeat_parsed c6witem none).path ∧
      countCI c6wpre.headers "host".data
        = countCI (popHeader (repeat_parsed c6witem none).headers
            "host".data).2 "host".data) ∧
    c6wpre.url = "https://h.test/p".data ∧
    countCI c6wpre.headers "host".data = 0 := by
  have h := c6_scheme_host_derivation c6wstore 3 none none none c6witem c6wpre rfl rfl
  exact ⟨⟨h.1, h.2 rfl⟩, by decide, by decide⟩

/-! ### Claim C7 -/

/-- C7: response-body truncation in `request` (shared by `repeat`): with a
positive limit smaller than the body, the result is the first
`max_response_body` characters followed by the omission marker naming
exactly `length - max_response_body` omitted characters; with a zero limit
or a body within the limit, the body is returned unmodified. -/
theorem c7_truncation (m : Nat) (b : Str) :
    (0 < m → m < b.length →
      truncate_body m b = b.take m ++ "\n[... ".data ++ natToStr (b.length - m)
        ++ " chars omitted]".data) ∧
    (m = 0 ∨ b.length ≤ m → truncate_body m b = b) := by
  constructor
  · intro h1 h2
    unfold truncate_body
    rw [if_pos ⟨h1, h2⟩]
  · intro h
    unfold truncate_body
    rw [if_neg]
    rintro ⟨h1, h2⟩
    rcases h with h | h <;> omega

/-- C7 witness: the spec's own example, a 25-character body with limit 10,
and the unlimited case. -/
theorem c7_truncation_witness :
    truncate_body 10 c7body = c7body.take 10 ++ "\n[... ".data
      ++ natToStr (c7body.length - 10) ++ " chars omitted]".data ∧
    truncate_body 0 c7body = c7body :=
  ⟨(c7_truncation 10 c7body).1 (by decide) (by decide),
    (c7_truncation 0 c7body).2 (Or.inl rfl)⟩

/-! ### Claim C8 -/

/-- C8: every call `repeat` hands to the transport carries the exact-key
header `X-Burp-MCP` with value `repeat:<itemId>` — whatever the store, the
substitutions, the header overrides (even ones naming `X-Burp-MCP`) and
the body replacement, since the marker is assigned last and `request`
leaves a present `X-Burp-MCP` key untouched; and every call `request`
assembles carries an `X-Burp-MCP` key, set to `"request"` when the caller
did not supply that exact key. -/
theorem c8_provenance_marker :
    (∀ (store : Store) (item_id : Nat)
        (replacements : Option (List (Str × Str))) (add_headers : Option Dict)
        (body : Option Str) (call : SendCall),
      repeat_transmitted store item_id replacements add_headers body = .ok call →
      dictGet call.headers "X-Burp-MCP".data
        = some ("repeat:".data ++ natToStr item_id)) ∧
    (∀ (method url : Str) (headers : Option Dict) (body : Option Str),
      dictHasKey (request_send_call method url headers body).headers
        "X-Burp-MCP".data = true ∧
      (dictHasKey (headers.getD []) "X-Burp-MCP".data = false →
        dictGet (request_send_call method url headers body).headers
          "X-Burp-MCP".data = some "request".data)) := by
  constructor
  · intro store item_id replacements add_headers body call h
    unfold repeat_transmitted at h
    cases hpre : repeat_pre store item_id replacements add_headers body with
    | error e =>
      rw [hpre] at h
      exact absurd h (by simp)
    | ok pre =>
      rw [hpre] at h
      rw [Except.ok.injEq] at h
      subst h
      have hm := repeat_pre_marker store item_id replacements add_headers body pre hpre
      unfold request_send_call
      have hk : dictHasKey pre.headers "X-Burp-MCP".data = true := by
        unfold dictHasKey
        rw [hm]
        rfl
      simp only [Option.getD_some, hk, if_pos]
      exact hm
  · intro method url headers body
    constructor
    · by_cases hk : dictHasKey (headers.getD []) "X-Burp-MCP".data
      · unfold request_send_call
        simp only [if_pos hk]
        exact hk
      · unfold request_send_call
        simp only [if_neg hk]
        exact dictHasKey_dictSet_self _ _ _
    · intro hk
      unfold request_send_call
      simp only [hk, Bool.false_eq_true, if_neg, if_false]
      exact dictGet_dictSet_self _ _ _

/-- C8 witness: an item whose raw text already carries `X-Burp-MCP: spoof`
and an override trying `X-Burp-MCP: evil` still transmit `repeat:4`; a
`request` call with no headers gets the defaulted marker. -/
theorem c8_provenance_marker_witness :
    dictGet c8wcall.headers "X-Burp-MCP".data
      = some ("repeat:".data ++ natToStr 4) ∧
    dictGet (request_send_call "get".data "http://x/".data none none).headers
      "X-Burp-MCP".data = some "request".data :=
  ⟨c8_provenance_marker.1 c8wstore 4 none
      (some [("X-Burp-MCP".data, "evil".data)]) none c8wcall rfl,
    (c8_provenance_marker.2 "get".data "http://x/".data none none).2 (by decide)⟩

/-! ### Claim C9 -/

/-- C9, counterexample: the claim says every registered tool returns a
structured `error`-field result for every connectivity failure, including
one at the forwarding endpoint. On the code, `_safe` catches only
`RuntimeError`, while `requests.request` raises
`requests.exceptions.ConnectionError` (not a `RuntimeError` subclass) when
the proxy is unreachable, so `burp_repeat` on a healthy store item with an
unreachable forwarding proxy raises instead of returning an error field. -/
theorem c9_counterexample :
    burpRepeatTool c9store c9transport 7 none none none 4000
      = .error (.requestsConnectionError "connection refused by proxy".data) := by
  rfl

/-- C9 (amended): for the tools whose client call only touches the store
through `_get`/`_post`, every failure — connectivity failure or non-2xx
store response — is wrapped into `RuntimeError` by the client and turned
into a structured `error`-field result by `_safe`, so those operations
never raise; the unprotected path is only the `requests` transmission
inside `burp_repeat`/`burp_request`. -/
theorem c9_store_tools_never_raise {α : Type} (base_url : Str)
    (net : Except UrllibFail α) :
    (burpStoreTool base_url net).isOk = true ∧
    (∀ f, net = .error f → ∃ m,
      burpStoreTool base_url net = .ok (.errorField m)) := by
  constructor
  · cases net with
    | ok a => rfl
    | error f => cases f <;> rfl
  · intro f hf
    subst hf
    cases f <;> exact ⟨_, rfl⟩

/-- C9 witness: a connection failure to the store yields an `error`-field
result, not an exception. -/
theorem c9_store_tools_never_raise_witness :
    (burpStoreTool "http://127.0.0.1:8090".data
        (.error (.urlError "refused".data) : Except UrllibFail Nat)).isOk = true ∧
    (∃ m, burpStoreTool "http://127.0.0.1:8090".data
        (.error (.urlError "refused".data) : Except UrllibFail Nat)
      = .ok (.errorField m)) :=
  ⟨(c9_store_tools_never_raise "http://127.0.0.1:8090".data _).1,
    (c9_store_tools_never_raise "http://127.0.0.1:8090".data _).2 _ rfl⟩

/-! ### Claim C10 -/

/-- C10: a full-body replacement equal to the empty string makes the
post-mutation body empty, and whenever the post-mutation body is empty the
call handed to the transport carries no body at all (`body=req_body or
None` evaluates to `None` on the empty string). -/
theorem c10_empty_body_sends_none :
    (∀ (store : Store) (item_id : Nat)
        (replacements : Option (List (Str × Str))) (add_headers : Option Dict)
        (pre : PreSend),
      repeat_pre store item_id replacements add_headers (some []) = .ok pre →
      pre.req_body = []) ∧
    (∀ (store : Store) (item_id : Nat)
        (replacements : Option (List (Str × Str))) (add_headers : Option Dict)
        (body : Option Str) (pre : PreSend),
      repeat_pre store item_id replacements add_headers body = .ok pre →
      pre.req_body = [] →
      (repeat_transmitted store item_id replacements add_headers body).map
        (fun c => c.body) = .ok none) := by
  constructor
  · intro store item_id replacements add_headers pre h
    exact repeat_pre_body_some store item_id replacements add_headers [] pre h
  · intro store item_id replacements add_headers body pre h hb
    unfold repeat_transmitted
    rw [h]
    simp only [Except.map]
    unfold repeat_body_arg
    rw [if_pos hb]
    rfl

/-- C10 witness: body replacement `""` on a captured POST with body `abc`
transmits a bodyless request. -/
theorem c10_empty_body_sends_none_witness :
    c10wpre.req_body = [] ∧
    (repeat_transmitted c10wstore 2 none none (some [])).map
      (fun c => c.body) = .ok none :=
  ⟨c10_empty_body_sends_none.1 c10wstore 2 none none c10wpre rfl,
    c10_empty_body_sends_none.2 c10wstore 2 none none (some []) c10wpre rfl
      (c10_empty_body_sends_none.1 c10wstore 2 none none c10wpre rfl)⟩

end Burp
